import Mathlib

set_option maxRecDepth 40000

/-!
Shallow embedding of the rule-based literature-screening scripts
(full-text screening template, title/abstract screening example and
template).  Python strings are modelled as `List Char` / `String`,
Python dict records as structures with `Option String` fields, floats
as `Rat`.  Regex literals are translated pattern by pattern into
executable matchers.
-/

/-- Python `\s` whitespace class (ASCII part). -/
def wsChar (c : Char) : Bool :=
  c = ' ' || c = '\t' || c = '\n' || c = '\x0d' || c = '\x0b' || c = '\x0c'

/-- Python `\w` word-character class (ASCII part: alphanumeric or underscore). -/
def wordChar (c : Char) : Bool :=
  c.isAlphanum || c = '_'

/-- Python `\d` digit class (ASCII). -/
def digitChar (c : Char) : Bool :=
  c.isDigit

/-- ASCII case folding of one character, modelling Python `str.lower`. -/
def lowerChar (c : Char) : Char :=
  if h : 65 ≤ c.toNat ∧ c.toNat ≤ 90 then
    ⟨⟨⟨⟨c.toNat + 32, by omega⟩⟩⟩, show Nat.isValidChar (c.toNat + 32) from Or.inl (by omega)⟩
  else c

/-- Lowercase a character list (`text.lower()`). -/
def lowerStr (l : List Char) : List Char := l.map lowerChar

/-- One pass of `re.sub(r'\s+', ' ', ·)`: every maximal whitespace run becomes
one space.  The flag records whether the previous character was whitespace
(i.e. the current run has already emitted its space). -/
def collapseWs : Bool → List Char → List Char
  | _, [] => []
  | prev, c :: cs =>
    if wsChar c then
      if prev then collapseWs true cs else ' ' :: collapseWs true cs
    else c :: collapseWs false cs

/-- Python `str.strip()`: drop leading and trailing whitespace. -/
def pyStrip (l : List Char) : List Char :=
  ((l.dropWhile wsChar).reverse.dropWhile wsChar).reverse

/-- Python `str.split()` (no separator): maximal non-whitespace runs, empties
dropped.  Accumulator holds the current word reversed. -/
def wordsAux : List Char → List Char → List (List Char)
  | [], acc => if acc = [] then [] else [acc.reverse]
  | c :: cs, acc =>
    if wsChar c then
      if acc = [] then wordsAux cs [] else acc.reverse :: wordsAux cs []
    else wordsAux cs (c :: acc)

def pyWords (l : List Char) : List (List Char) := wordsAux l []

/-- Python `' '.join(ws)`. -/
def joinSpace : List (List Char) → List Char
  | [] => []
  | [w] => w
  | w :: ws => w ++ ' ' :: joinSpace ws

/-- Boolean list-prefix test. -/
def isPrefixL : List Char → List Char → Bool
  | [], _ => true
  | _ :: _, [] => false
  | a :: as, b :: bs => a = b && isPrefixL as bs

/-- Python substring containment `lit in text` (also `re.search` of a regex
that is a plain literal). -/
def containsSub (lit : List Char) : List Char → Bool
  | [] => isPrefixL lit []
  | c :: rest => isPrefixL lit (c :: rest) || containsSub lit rest

/-- Python `s.split(sep)` for a non-empty separator, scanning left to right
over non-overlapping occurrences.  The fuel (one per consumed character,
`length + 1` at the start) only makes the recursion structural; it cannot run
out, since every step consumes at least one character. -/
def pySplitGo (sep : List Char) : Nat → List Char → List Char → List String
  | 0, acc, l => [⟨acc.reverse ++ l⟩]
  | _ + 1, acc, [] => [⟨acc.reverse⟩]
  | fuel + 1, acc, c :: rest =>
    if isPrefixL sep (c :: rest) then
      (⟨acc.reverse⟩ : String) :: pySplitGo sep fuel [] ((c :: rest).drop sep.length)
    else pySplitGo sep fuel (c :: acc) rest

def pySplit (sep : List Char) (l : List Char) : List String :=
  pySplitGo sep (l.length + 1) [] l

/-- No word character at this point of the text (end of string is a boundary). -/
def notWordAt : List Char → Bool
  | [] => true
  | c :: _ => !wordChar c

/-- The pattern `\bLIT\b` matched exactly here, for a literal that begins and
ends with a word character: the preceding character (`prev`, `none` at the
start of the text) is absent or a non-word character, `lit` follows, and the
character after it is absent or a non-word character. -/
def wordMatchHere (lit : List Char) (prev : Option Char) (t : List Char) : Bool :=
  (match prev with | none => true | some c => !wordChar c) &&
    isPrefixL lit t && notWordAt (t.drop lit.length)

def wordSearchAux (lit : List Char) : Option Char → List Char → Bool
  | prev, [] => wordMatchHere lit prev []
  | prev, c :: rest => wordMatchHere lit prev (c :: rest) || wordSearchAux lit (some c) rest

/-- `re.search(r'\bLIT\b', text)` for a literal beginning and ending with a
word character. -/
def wordSearch (lit : List Char) (text : List Char) : Bool :=
  wordSearchAux lit none text

/-- One-position test of `\breview\b|meta[ -]analysis|systematic review`
(the `\b`s bind only to the first alternative). -/
def reviewMatchHere (prev : Option Char) (t : List Char) : Bool :=
  wordMatchHere "review".data prev t ||
  (isPrefixL "meta".data t &&
    (match t.drop 4 with
     | c :: rest => (c = ' ' || c = '-') && isPrefixL "analysis".data rest
     | [] => false)) ||
  isPrefixL "systematic review".data t

def reviewSearchAux : Option Char → List Char → Bool
  | prev, [] => reviewMatchHere prev []
  | prev, c :: rest => reviewMatchHere prev (c :: rest) || reviewSearchAux (some c) rest

/-- `re.search(r'\breview\b|meta[ -]analysis|systematic review', text)`. -/
def reviewSearch (text : List Char) : Bool :=
  reviewSearchAux none text

/-- The review pattern matched at position `i` of `l` (used to state where the
pattern's occurrences lie in the untruncated text). -/
def reviewMatchAt (l : List Char) (i : Nat) : Bool :=
  reviewMatchHere (if i = 0 then none else l.get? (i - 1)) (l.drop i)

namespace FullText

/-- `normalize_text` of the full-text screening template:
`re.sub(r'\s+', ' ', text.lower()).strip()`. -/
def normalize_text (s : String) : String :=
  ⟨pyStrip (collapseWs false (lowerStr s.data))⟩

/-- `re.match` of the heading pattern
`\b(?:materials\s+and\s+)?methods|experimental procedures|study design\b`
against a stripped, lowercased line.  The leading `\b` binds only to the first
alternative (satisfied whenever it matches, since `m` is a word character) and
the trailing `\b` only to the last. -/
def matchMethodsHeading (l : List Char) : Bool :=
  isPrefixL "methods".data l ||
  (isPrefixL "materials".data l &&
    (let r1 := l.drop 9
     !(r1.takeWhile wsChar).isEmpty &&
       (let r2 := r1.dropWhile wsChar
        isPrefixL "and".data r2 &&
          (let r3 := r2.drop 3
           !(r3.takeWhile wsChar).isEmpty &&
             isPrefixL "methods".data (r3.dropWhile wsChar))))) ||
  isPrefixL "experimental procedures".data l ||
  (isPrefixL "study design".data l && notWordAt (l.drop 12))

/-- `re.match` of `\bresults|findings|outcomes\b`. -/
def matchResultsHeading (l : List Char) : Bool :=
  isPrefixL "results".data l || isPrefixL "findings".data l ||
  (isPrefixL "outcomes".data l && notWordAt (l.drop 8))

/-- `re.match` of `\bdiscussion|conclusion|implications\b`. -/
def matchDiscussionHeading (l : List Char) : Bool :=
  isPrefixL "discussion".data l || isPrefixL "conclusion".data l ||
  (isPrefixL "implications".data l && notWordAt (l.drop 12))

/-- `re.match` of `\babstract|summary\b`. -/
def matchAbstractHeading (l : List Char) : Bool :=
  isPrefixL "abstract".data l || (isPrefixL "summary".data l && notWordAt (l.drop 7))

inductive SectionName
  | methods
  | results
  | discussion
  | abstract
deriving DecidableEq

/-- `section_patterns` tried in dict order on `line.strip().lower()`, with
`break` at the first match. -/
def headingMatch (line : String) : Option SectionName :=
  let l := lowerStr (pyStrip line.data)
  if matchMethodsHeading l then some .methods
  else if matchResultsHeading l then some .results
  else if matchDiscussionHeading l then some .discussion
  else if matchAbstractHeading l then some .abstract
  else none

structure Sections where
  full_text : String
  methods : String := ""
  results : String := ""
  discussion : String := ""
  abstract : String := ""
deriving DecidableEq

def setSection (s : Sections) : SectionName → String → Sections
  | .methods, v => { s with methods := v }
  | .results, v => { s with results := v }
  | .discussion, v => { s with discussion := v }
  | .abstract, v => { s with abstract := v }

/-- `'\n'.join(current_text).strip()`. -/
def flushValue (buf : List String) : String :=
  ⟨pyStrip (String.intercalate "\n" buf).data⟩

/-- The line loop of `extract_text_sections`: on a heading match flush the
buffer into the previous current section, otherwise buffer the line when some
section is current (lines before any heading are dropped); at the end flush a
non-empty buffer into the last current section. -/
def sectionsLoop : Sections → Option SectionName → List String → List String → Sections
  | secs, cur, buf, [] =>
    match cur with
    | some s => if buf = [] then secs else setSection secs s (flushValue buf)
    | none => secs
  | secs, cur, buf, line :: rest =>
    match headingMatch line with
    | some s =>
      match cur with
      | some p => sectionsLoop (setSection secs p (flushValue buf)) (some s) [] rest
      | none => sectionsLoop secs (some s) [] rest
    | none =>
      match cur with
      | some _ => sectionsLoop secs cur (buf ++ [line]) rest
      | none => sectionsLoop secs cur buf rest

/-- `extract_text_sections` (`text.split('\n')` keeps empty lines). -/
def extract_text_sections (text : String) : Sections :=
  sectionsLoop { full_text := text } none [] (pySplit "\n".data text.data)

/-- Pathway patterns `\bterm1\b` … `\bterm18\b` of the template, represented by
their literal cores; the `\b…\b` wrapper is realised by `wordSearch`. -/
def primary_terms : List String :=
  ["term1", "term2", "term3", "term4", "term5", "term6", "term7", "term8", "term9"]

def secondary_terms : List String :=
  ["term10", "term11", "term12", "term13", "term14", "term15"]

def additional_terms : List String :=
  ["term16", "term17", "term18"]

def all_pathway_terms : List String :=
  primary_terms ++ secondary_terms ++ additional_terms

structure ValResult where
  is_valid : Bool
  terms_found : List String
deriving DecidableEq

/-- `validate_pathway_terms`. -/
def validate_pathway_terms (combined_text : String) : ValResult :=
  let normalized_text := normalize_text combined_text
  let pathway_hits := all_pathway_terms.filter fun term => wordSearch term.data normalized_text.data
  { is_valid := decide (1 ≤ pathway_hits.length), terms_found := pathway_hits }

/-- `measurement_terms` of the template (word-bounded patterns, literal cores). -/
def measurement_terms : List (String × List String) :=
  [("Primary Techniques",
    ["technique1", "technique2", "technique3", "technique4", "technique5",
     "technique6", "technique7", "technique8", "technique9"]),
   ("Advanced Techniques",
    ["advanced1", "advanced2", "advanced3", "advanced4", "advanced5",
     "advanced6", "advanced7", "advanced8", "advanced9"]),
   ("Additional Measurements",
    ["measurement1", "measurement2", "measurement3"])]

structure MeasResult where
  is_valid : Bool
  terms_found : List String
  category_hits : List (String × List String)
deriving DecidableEq

/-- `validate_measurements` (the `sections` argument of the source is unused). -/
def validate_measurements (text : String) (_sections : Sections) : MeasResult :=
  let normalized_text := normalize_text text
  let all_terms := (measurement_terms.map Prod.snd).flatten
  let measurement_hits := all_terms.filter fun term => wordSearch term.data normalized_text.data
  { is_valid := decide (1 ≤ measurement_hits.length)
    terms_found := measurement_hits
    category_hits := measurement_terms.map fun p =>
      (p.1, p.2.filter fun term => wordSearch term.data normalized_text.data) }

/-- `experimental_models` of the template: plain (unanchored) regex literals,
searched as substrings. -/
def experimental_models : List (String × List String) :=
  [("model_type1", ["term1", "term2", "term3", "term4", "term5"]),
   ("model_type2", ["term6", "term7", "term8", "term9", "term10"])]

structure ModelCheck where
  present : Bool
  «matches» : List String
deriving DecidableEq

structure Relevance where
  is_relevant : Bool
  model_validation : List (String × ModelCheck)
  has_valid_model : Bool
  direct_measurements : MeasResult
  pathways : ValResult
deriving DecidableEq

/-- `check_study_relevance`. -/
def check_study_relevance (sections : Sections) : Relevance :=
  let combined_text : String := ⟨lowerStr sections.full_text.data⟩
  let model_validation := experimental_models.map fun p =>
    let ms := p.2.filter fun term => containsSub term.data combined_text.data
    (p.1, ModelCheck.mk (!ms.isEmpty) ms)
  let has_valid_model := model_validation.any fun p => p.2.present
  let measurement_validation := validate_measurements combined_text sections
  let pathway_validation := validate_pathway_terms combined_text
  { is_relevant := has_valid_model && measurement_validation.is_valid && pathway_validation.is_valid
    model_validation := model_validation
    has_valid_model := has_valid_model
    direct_measurements := measurement_validation
    pathways := pathway_validation }

structure Article where
  filename : Option String := none
  text : Option String := none
deriving DecidableEq

structure ReviewRow where
  filename : String
  title : String
deriving DecidableEq

structure NotCondRow where
  filename : String
  reason : String
  model_validation : List (String × ModelCheck)
deriving DecidableEq

structure NotPathwayRow where
  filename : String
  reason : String
  pathways : ValResult
deriving DecidableEq

structure NoMethodsRow where
  filename : String
  reason : String
  measurements : MeasResult
deriving DecidableEq

structure IncludedRow where
  filename : String
  methods_text : String
  measurement_validation : MeasResult
  pathways : ValResult
  model_validation : List (String × ModelCheck)
deriving DecidableEq

structure FailRow where
  filename : String
  error : String
deriving DecidableEq

structure Categories where
  included_original : List IncludedRow := []
  included_reviews : List ReviewRow := []
  excluded_not_condition : List NotCondRow := []
  excluded_not_pathway : List NotPathwayRow := []
  excluded_no_methods : List NoMethodsRow := []
  processing_failed : List FailRow := []
deriving DecidableEq

/-- The disposition of one article.  `dropped` mirrors the source's fall-through
`continue` in the `not is_relevant` branch when none of the three `elif`s fire;
it is proved unreachable below. -/
inductive Disposition
  | included_original (row : IncludedRow)
  | included_reviews (row : ReviewRow)
  | excluded_not_condition (row : NotCondRow)
  | excluded_not_pathway (row : NotPathwayRow)
  | excluded_no_methods (row : NoMethodsRow)
  | processing_failed (row : FailRow)
  | dropped
deriving DecidableEq

/-- The part of the loop body of `filter_articles` after the review check
(model, pathway and measurement checks). -/
def relevance_route (article : Article) : Disposition :=
  let filename := article.filename.getD ""
  let text := article.text.getD ""
  let sections := extract_text_sections text
  let relevance := check_study_relevance sections
  if !relevance.is_relevant then
    if !relevance.has_valid_model then
      .excluded_not_condition ⟨filename, "Not a valid condition model", relevance.model_validation⟩
    else if !relevance.pathways.is_valid then
      .excluded_not_pathway ⟨filename, "Insufficient pathway coverage", relevance.pathways⟩
    else if !relevance.direct_measurements.is_valid then
      .excluded_no_methods
        ⟨filename, "Insufficient validated measurements", relevance.direct_measurements⟩
    else .dropped
  else
    .included_original ⟨filename, ⟨sections.methods.data.take 500⟩,
      relevance.direct_measurements, relevance.pathways, relevance.model_validation⟩

/-- The loop body of `filter_articles` for one article.  An empty `text` raises
`ValueError("Empty text content")`, caught by the per-record `except` into
`processing_failed`.  The review check searches the first 1000 characters of
the lowercased text.  A review row's title is `sections.get('title', '')`:
the sections dict has no `title` key, so it is always the empty string. -/
def process_article (article : Article) : Disposition :=
  let filename := article.filename.getD ""
  let text := article.text.getD ""
  if text = "" then .processing_failed ⟨filename, "Empty text content"⟩
  else if reviewSearch ((lowerStr text.data).take 1000) then
    .included_reviews ⟨filename, ""⟩
  else relevance_route article

def addDisposition (cats : Categories) : Disposition → Categories
  | .included_original r => { cats with included_original := cats.included_original ++ [r] }
  | .included_reviews r => { cats with included_reviews := cats.included_reviews ++ [r] }
  | .excluded_not_condition r =>
    { cats with excluded_not_condition := cats.excluded_not_condition ++ [r] }
  | .excluded_not_pathway r =>
    { cats with excluded_not_pathway := cats.excluded_not_pathway ++ [r] }
  | .excluded_no_methods r => { cats with excluded_no_methods := cats.excluded_no_methods ++ [r] }
  | .processing_failed r => { cats with processing_failed := cats.processing_failed ++ [r] }
  | .dropped => cats

/-- `filter_articles` of the full-text screening template. -/
def filter_articles (articles_text : List Article) : Categories :=
  articles_text.foldl (fun cats a => addDisposition cats (process_article a)) {}

end FullText

namespace TitleAbstract

/-- `normalize_text` of the title/abstract scripts: empty stays empty,
otherwise lowercase, drop `[^\w\s\d]` characters, then
`' '.join(text.split())`. -/
def normalize_text (s : String) : String :=
  if s = "" then ""
  else ⟨joinSpace (pyWords ((lowerStr s.data).filter fun c => wordChar c || wsChar c))⟩

end TitleAbstract

namespace Difflib

/-!
`difflib.SequenceMatcher(None, a, b).ratio()` over character sequences,
as called by `text_similarity`.  `isjunk` is `None`, so the junk set is
empty and the two junk-extension loops of `find_longest_match` never run;
autojunk removes popular elements from `b2j` when `len(b) >= 200`.
-/

/-- Append occurrence index `i` of element `c` to the association list. -/
def b2jInsert : List (Char × List Nat) → Char → Nat → List (Char × List Nat)
  | [], c, i => [(c, [i])]
  | (d, is) :: rest, c, i =>
    if d = c then (d, is ++ [i]) :: rest else (d, is) :: b2jInsert rest c i

/-- `b2j`: ascending occurrence lists of each element of `b`. -/
def b2jOf (b : List Char) : List (Char × List Nat) :=
  b.enum.foldl (fun assoc p => b2jInsert assoc p.2 p.1) []

/-- `__chain_b` with `isjunk = None`: build `b2j`, then with autojunk delete
popular elements (more than `n // 100 + 1` occurrences) when `n >= 200`. -/
def chainB (b : List Char) : List (Char × List Nat) :=
  let b2j := b2jOf b
  let n := b.length
  if 200 ≤ n then b2j.filter fun p => decide (p.2.length ≤ n / 100 + 1)
  else b2j

def b2jGet (assoc : List (Char × List Nat)) (c : Char) : List Nat :=
  match assoc.find? (fun p => p.1 == c) with
  | some p => p.2
  | none => []

def j2lenGet (m : List (Nat × Nat)) (j : Nat) : Nat :=
  match m.find? (fun p => p.1 == j) with
  | some p => p.2
  | none => 0

structure Best where
  besti : Nat
  bestj : Nat
  bestsize : Nat
deriving DecidableEq

/-- Inner loop of `find_longest_match` over the occurrence list of `a[i]`
(already restricted to `blo <= j < bhi`): `k = j2len.get(j-1, 0) + 1`,
record it in the new map, update the best triple on strict improvement. -/
def flmInner (i : Nat) : List Nat → List (Nat × Nat) → List (Nat × Nat) → Best →
    List (Nat × Nat) × Best
  | [], _, newm, best => (newm, best)
  | j :: js, oldm, newm, best =>
    let k := (if j = 0 then 0 else j2lenGet oldm (j - 1)) + 1
    let best2 := if best.bestsize < k then Best.mk (i + 1 - k) (j + 1 - k) k else best
    flmInner i js oldm ((j, k) :: newm) best2

/-- Outer loop of `find_longest_match` over `i` in `[alo, ahi)`;
the counter is `ahi - i`. -/
def flmOuter (a : List Char) (b2j : List (Char × List Nat)) (blo bhi : Nat) :
    Nat → Nat → List (Nat × Nat) → Best → Best
  | _, 0, _, best => best
  | i, n + 1, j2len, best =>
    match a.get? i with
    | none => best
    | some ai =>
      let js := (b2jGet b2j ai).filter fun j => decide (blo ≤ j) && decide (j < bhi)
      let r := flmInner i js j2len [] best
      flmOuter a b2j blo bhi (i + 1) n r.1 r.2

/-- First extension loop: widen the best block to the left over equal
(non-junk, and the junk set is empty) characters. -/
def extendBack (a b : List Char) (alo blo : Nat) : Nat → Best → Best
  | 0, best => best
  | fuel + 1, best =>
    if alo < best.besti && blo < best.bestj then
      match a.get? (best.besti - 1), b.get? (best.bestj - 1) with
      | some x, some y =>
        if x = y then
          extendBack a b alo blo fuel
            (Best.mk (best.besti - 1) (best.bestj - 1) (best.bestsize + 1))
        else best
      | _, _ => best
    else best

/-- Second extension loop: widen the best block to the right. -/
def extendFwd (a b : List Char) (ahi bhi : Nat) : Nat → Best → Best
  | 0, best => best
  | fuel + 1, best =>
    if best.besti + best.bestsize < ahi && best.bestj + best.bestsize < bhi then
      match a.get? (best.besti + best.bestsize), b.get? (best.bestj + best.bestsize) with
      | some x, some y =>
        if x = y then
          extendFwd a b ahi bhi fuel
            (Best.mk best.besti best.bestj (best.bestsize + 1))
        else best
      | _, _ => best
    else best

/-- `find_longest_match(alo, ahi, blo, bhi)`.  The third and fourth loops of
the source extend over junk characters only; with `isjunk = None` the junk set
is empty and they never fire. -/
def find_longest_match (a b : List Char) (b2j : List (Char × List Nat))
    (alo ahi blo bhi : Nat) : Best :=
  let best0 := flmOuter a b2j blo bhi alo (ahi - alo) [] (Best.mk alo blo 0)
  let best1 := extendBack a b alo blo best0.besti best0
  extendFwd a b ahi bhi ahi best1

/-- `get_matching_blocks` queue loop, collecting the raw blocks.  The Python
queue is a stack (`pop()` takes the last element); pushing `(alo, i, blo, j)`
then `(i+k, ahi, j+k, bhi)` therefore processes the high interval first, which
here is prepending the low quadruple then the high one.  The final sort and
adjacent-merge of the source preserve the total matched size, which is all
`ratio` reads from the blocks.  Each iteration strictly decreases
`2*(a-interval length)+1` summed over the queue, so fuel `2*|a| + 2`
suffices. -/
def matchingBlocksGo (a b : List Char) (b2j : List (Char × List Nat)) :
    Nat → List (Nat × Nat × Nat × Nat) → List Best → List Best
  | 0, _, acc => acc
  | _ + 1, [], acc => acc
  | fuel + 1, (alo, ahi, blo, bhi) :: queue, acc =>
    let m := find_longest_match a b b2j alo ahi blo bhi
    if m.bestsize = 0 then matchingBlocksGo a b b2j fuel queue acc
    else
      let queue1 := if alo < m.besti && blo < m.bestj then
          (alo, m.besti, blo, m.bestj) :: queue else queue
      let queue2 := if m.besti + m.bestsize < ahi && m.bestj + m.bestsize < bhi then
          (m.besti + m.bestsize, ahi, m.bestj + m.bestsize, bhi) :: queue1 else queue1
      matchingBlocksGo a b b2j fuel queue2 (acc ++ [m])

/-- `SequenceMatcher(None, a, b).ratio()`:
`2 * (total matched size) / (len(a) + len(b))` as an exact rational
(`mkRat` is the reduced fraction), and `1.0` on two empty sequences. -/
def ratio (sa sb : String) : Rat :=
  let a := sa.data
  let b := sb.data
  let blocks := matchingBlocksGo a b (chainB b) (2 * a.length + 2)
    [(0, a.length, 0, b.length)] []
  let matched := (blocks.map Best.bestsize).sum
  if a.length + b.length ≠ 0 then
    mkRat (Int.ofNat (2 * matched)) (a.length + b.length)
  else 1

end Difflib

namespace TitleAbstract

structure Entry where
  publication_type : Option String := none
  year : Option String := none
  title : Option String := none
  journal : Option String := none
  volume : Option String := none
  issue : Option String := none
  authors : Option String := none
  abstract : Option String := none
  doi : Option String := none
  database : Option String := none
deriving DecidableEq

/-- `f"{entry.get('title', '')} {entry.get('abstract', '')}".lower()`. -/
def entryText (entry : Entry) : List Char :=
  lowerStr (entry.title.getD "" ++ " " ++ entry.abstract.getD "").data

def hfpef_terms : List String :=
  ["hfpef", "heart failure with preserved ejection fraction", "diastolic dysfunction",
   "diastolic heart failure", "heart failure with normal ejection fraction", "hfnef",
   "preserved ef", "preserved ejection fraction", "preserved systolic function",
   "normal systolic function", "preserved left ventricular function", "preserved lv function",
   "preserved left ventricular ejection fraction", "preserved lvef", "normal lvef",
   "hf with preserved ef", "hf with normal ef", "diastolic hf", "dhf",
   "left ventricular diastolic dysfunction", "lv diastolic dysfunction"]

def model_terms : List String :=
  ["hfd + l-name", "high-fat diet and l-name", "two-hit model", "three-hit model",
   "high fat diet", "l-name", "obesity"]

/-- `check_hfpef_terms`. -/
def check_hfpef_terms (entry : Entry) : Bool :=
  let text := entryText entry
  hfpef_terms.any (fun term => containsSub term.data text) ||
    model_terms.any (fun term => containsSub term.data text)

def metabolic_terms : List (String × List String) :=
  [("glucose",
    ["glut1", "glut4", "glucose transport", "glucose uptake",
     "glycolysis", "pfk", "phosphofructokinase",
     "pyruvate dehydrogenase", "pdh", "pdk", "mpc",
     "glucose oxidation", "pyruvate metabolism"]),
   ("fatty_acids",
    ["cd36", "fat transporter", "fatty acid transport",
     "cpt1", "carnitine palmitoyltransferase",
     "lcad", "acad", "ech", "hadh", "hydroxyacyl-coa",
     "malonyl-coa", "acc", "acetyl-coa carboxylase", "mcd",
     "fatty acid oxidation", "fat oxidation", "fao"]),
   ("ketones",
    ["bohb", "beta-hydroxybutyrate", "ketone bodies",
     "bdh1", "hydroxybutyrate dehydrogenase",
     "scot", "ketoacid", "ketone oxidation"]),
   ("bcaa",
    ["branched-chain amino acid", "bcaa oxidation",
     "leucine", "isoleucine", "valine",
     "bcatm", "bckdh", "lat", "amino acid transport"]),
   ("energy_metabolism",
    ["tca cycle", "krebs cycle", "citric acid cycle",
     "nadh", "fadh2", "electron transport chain", "etc",
     "oxidative phosphorylation", "atp synthesis",
     "atp production", "mitochondrial respiration",
     "acetyl-coa", "proton gradient", "metabolic stress",
     "metabolic pathway"])]

/-- `check_metabolic_detail`: per-pathway hit counts, then
`pathways_covered >= 1 or detailed_pathway` with
`detailed_pathway = any(count >= 1 ...)`. -/
def check_metabolic_detail (entry : Entry) : Bool :=
  let text := entryText entry
  let pathway_matches := metabolic_terms.map fun p =>
    p.2.countP fun term => containsSub term.data text
  let pathways_covered := pathway_matches.countP fun count => decide (0 < count)
  let detailed_pathway := pathway_matches.any fun count => decide (1 ≤ count)
  decide (1 ≤ pathways_covered) || detailed_pathway

/-- `measurement_terms` of `check_metabolic_measurements`.  In the source the
element after `'metabolic flux'` reads
`'protein expression'  'western blot'` with no comma between the string
literals, which Python concatenates into the single element
`'protein expressionwestern blot'`. -/
def ta_measurement_terms : List (String × List String) :=
  [("glucose",
    ["glycolysis", "glucose uptake", "glucose oxidation", "glucose transport",
     "glut1", "glut4", "hexokinase", "phosphofructokinase", "pfk",
     "pyruvate dehydrogenase", "pdh activity", "pdk", "mpc"]),
   ("fatty_acids",
    ["fatty acid oxidation", "fat oxidation", "fao", "beta oxidation",
     "cd36", "fat transporter", "cpt1", "carnitine palmitoyltransferase",
     "lcad", "acad", "ech", "hadh", "hydroxyacyl-coa", "thiolase",
     "malonyl-coa", "acc", "acetyl-coa carboxylase", "mcd"]),
   ("ketones",
    ["ketone oxidation", "beta-hydroxybutyrate", "hydroxybutyrate dehydrogenase"]),
   ("bcaa",
    ["branched-chain amino acid", "bcaa oxidation", "amino acid transport"]),
   ("energy_metabolism",
    ["tca cycle", "krebs cycle", "citric acid cycle", "nad", "nadh", "fad", "fadh2",
     "electron transport chain", "etc", "oxidative phosphorylation",
     "atp synthesis", "atp production", "mitochondrial respiration",
     "oxygen consumption", "respiratory quotient", "nitrosative stress",
     "acetyl-coa", "proton gradient", "metabolic stress", "metabolic pathway"]),
   ("direct_measurement_terms",
    ["carbon-14", "14c", "c14", "c-14",
     "tritium", "3h", "h3", "h-3",
     "carbon-13", "13c", "c13", "c-13",
     "labeled fatty acid", "labelled fatty acid", "radiolabelled",
     "isotope", "tracer", "isotope tracer",
     "isolated heart", "working heart", "perfused heart",
     "langendorff", "ex vivo",
     "mri", "magnetic resonance", "nmr", "31p",
     "gc-ms", "lc-ms", "mass spectrometry",
     "seahorse", "respirometry",
     "flux analysis", "metabolic flux", "protein expressionwestern blot",
     "immunoblot", "protein expression",
     "electron microscopy", "electron micrograph",
     "oxygen consumption", "oxygen electrode",
     "mitochondrial function", "mitochondrial morphology",
     "metabolomics", "metabolite profiling",
     "enzymatic activity", "enzyme activity",
     "protein modification", "protein acetylation",
     "immunoprecipitation"])]

def taMeasGet (category : String) : List String :=
  match ta_measurement_terms.find? (fun p => p.1 == category) with
  | some p => p.2
  | none => []

/-- `check_metabolic_measurements`.  In the source the statements computing
`has_direct_measurement`, `pathway_measurements` and the `return` are indented
into the `for` loop body, after the `if`.  On the first iteration (category
`'glucose'`) either the `if` fires and `break` exits the loop, after which the
function falls off its end and returns `None`; or the `if` fails and the loop
body returns.  So: a glucose measurement hit yields `None` (falsy), otherwise
the result is `has_direct_measurement or pathway_measurements >= 1`. -/
def check_metabolic_measurements (entry : Entry) : Option Bool :=
  let text := entryText entry
  if (taMeasGet "glucose").any (fun term => containsSub term.data text) then
    none
  else
    let has_direct_measurement :=
      (taMeasGet "direct_measurement_terms").any fun term => containsSub term.data text
    let pathway_measurements :=
      (["glucose", "fatty_acids", "ketones", "bcaa", "energy_metabolism"]).countP
        fun pathway => (taMeasGet pathway).any fun term => containsSub term.data text
    some (has_direct_measurement || decide (1 ≤ pathway_measurements))

/-- Python truthiness of an optional boolean (`None` is falsy). -/
def truthy : Option Bool → Bool
  | none => false
  | some b => b

/-- `text_similarity`: `0` when either text is falsy, otherwise
`SequenceMatcher(None, text1, text2).ratio()`. -/
def text_similarity (text1 text2 : String) : Rat :=
  if text1 = "" || text2 = "" then 0
  else Difflib.ratio text1 text2

/-- `get_entry_key`: normalized title, `'|'`, and the first 300 characters of
the normalized abstract (empty when the abstract is absent or falsy). -/
def get_entry_key (entry : Entry) : String :=
  let title := normalize_text (entry.title.getD "")
  let abstract : String :=
    if entry.abstract.getD "" ≠ "" then
      ⟨(normalize_text (entry.abstract.getD "")).data.take 300⟩
    else ""
  title ++ "|" ++ abstract

structure EntryCategories where
  included : List Entry := []
  systematic_reviews : List Entry := []
  narrative_reviews : List Entry := []
  duplicates : List Entry := []
  not_HFpEF_related : List Entry := []
  no_measurements : List Entry := []
deriving DecidableEq

/-- The inner scan of `seen_entries` in insertion order, with `break` at the
first similarity strictly above the threshold `0.85` (the exact rational
`17/20`, written `mkRat 17 20`). -/
def scan_duplicate (entry_key : String) : List String → Bool
  | [] => false
  | seen_key :: rest =>
    if text_similarity entry_key seen_key > mkRat 17 20 then true
    else scan_duplicate entry_key rest

/-- The loop body of `filter_articles` for one entry: duplicate scan first
(a duplicate is bucketed and not registered), then registration of the key,
then publication-type review split, HFpEF check, and the disjunctive
pathway-detail / measurement check. -/
def filter_step (st : EntryCategories × List String) (entry : Entry) :
    EntryCategories × List String :=
  let categories := st.1
  let seen_entries := st.2
  let entry_key := get_entry_key entry
  if scan_duplicate entry_key seen_entries then
    ({ categories with duplicates := categories.duplicates ++ [entry] }, seen_entries)
  else
    let seen2 := seen_entries ++ [entry_key]
    let pub_type : String := ⟨lowerStr (entry.publication_type.getD "").data⟩
    if containsSub "review".data pub_type.data then
      if (["systematic", "meta-analysis"]).any (fun term => containsSub term.data pub_type.data)
      then
        ({ categories with systematic_reviews := categories.systematic_reviews ++ [entry] }, seen2)
      else
        ({ categories with narrative_reviews := categories.narrative_reviews ++ [entry] }, seen2)
    else if !check_hfpef_terms entry then
      ({ categories with not_HFpEF_related := categories.not_HFpEF_related ++ [entry] }, seen2)
    else if !(check_metabolic_detail entry || truthy (check_metabolic_measurements entry)) then
      ({ categories with no_measurements := categories.no_measurements ++ [entry] }, seen2)
    else
      ({ categories with included := categories.included ++ [entry] }, seen2)

/-- `filter_articles` of the title/abstract screening example. -/
def filter_articles (entries : List Entry) : EntryCategories :=
  (entries.foldl filter_step ({}, [])).1

end TitleAbstract

namespace TitleAbstract

/-!
`parse_endnote_entries` of the title/abstract screening example.  Each field
is extracted by `re.search` of a label-anchored pattern; `re.search` takes the
leftmost position at which the whole pattern matches, and at that position the
greedy `\s*` backtracks from the longest whitespace run downwards.
-/

/-- Capture of `(.+?)(?:\n|$)` with `re.DOTALL` (lazy, at least one character,
up to the first newline strictly after it or the end). -/
def lazyDotallToNl : List Char → Option (List Char)
  | [] => none
  | c :: rest => some (c :: rest.takeWhile (fun d => d ≠ '\n'))

/-- Capture of both `(.+)` (greedy, no DOTALL) and `(.+?)(?:\n|$)`
(lazy, no DOTALL): at least one character, which cannot be a newline, and in
both cases the group extends exactly to the next newline or the end. -/
def lineGroup : List Char → Option (List Char)
  | [] => none
  | c :: rest => if c = '\n' then none else some (c :: rest.takeWhile (fun d => d ≠ '\n'))

/-- Capture of `(\d{4})`. -/
def fourDigits (r : List Char) : Option (List Char) :=
  let d := r.take 4
  if d.length = 4 && d.all digitChar then some d else none

/-- Capture of `(\d+)` (greedy digit run). -/
def digitsGroup : List Char → Option (List Char)
  | [] => none
  | c :: rest => if digitChar c then some (c :: rest.takeWhile digitChar) else none

/-- Does `\n\w+:` match here (a newline, one or more word characters, a
colon)?  The greedy `\w+` succeeds exactly when the maximal word run after the
newline is non-empty and followed by `':'`. -/
def nlLabelHere : List Char → Bool
  | '\n' :: rest =>
    let run := rest.takeWhile wordChar
    !run.isEmpty && (match rest.drop run.length with | ':' :: _ => true | _ => false)
  | _ => false

def lazyLabelTake : List Char → List Char
  | [] => []
  | c :: rest => if nlLabelHere (c :: rest) then [] else c :: lazyLabelTake rest

/-- Capture of `(.+?)(?:\n\w+:|$)` with `re.DOTALL`: at least one character,
lazily extended to the first following label line or the end. -/
def lazyDotallToLabel : List Char → Option (List Char)
  | [] => none
  | c :: rest => if nlLabelHere rest then some [c] else some (c :: lazyLabelTake rest)

/-- Greedy `\s*` before a group: try consuming `k` leading whitespace
characters, largest first (`k = 0` is `g` on the whole rest). -/
def wsTry (g : List Char → Option (List Char)) (s : List Char) : Nat → Option (List Char)
  | 0 => g s
  | k + 1 =>
    match g (s.drop (k + 1)) with
    | some v => some v
    | none => wsTry g s k

def wsStarThen (g : List Char → Option (List Char)) (s : List Char) : Option (List Char) :=
  wsTry g s (s.takeWhile wsChar).length

/-- `re.search` of `label` followed by a tail pattern: scan positions left to
right, at each occurrence of the literal `label` attempt the tail on the rest;
first success wins. -/
def searchLabel (label : List Char) (tailFn : List Char → Option (List Char)) :
    List Char → Option (List Char)
  | [] => if isPrefixL label [] then tailFn [] else none
  | c :: rest =>
    match (if isPrefixL label (c :: rest) then tailFn ((c :: rest).drop label.length)
           else none) with
    | some v => some v
    | none => searchLabel label tailFn rest

def fieldSearch (label : String) (g : List Char → Option (List Char)) (entry : String) :
    Option (List Char) :=
  searchLabel label.data (wsStarThen g) entry.data

/-- `.replace('\n', ' ')`. -/
def replaceNlSpace (l : List Char) : List Char :=
  l.map fun c => if c = '\n' then ' ' else c

/-- `re.split(r'\n\n(?=Reference Type:)', s)`: split at every `"\n\n"`
immediately followed by `"Reference Type:"`; the two newlines are consumed,
the lookahead is not.  Fuel as in `pySplitGo`. -/
def splitRefTypeGo : Nat → List Char → List Char → List String
  | 0, acc, l => [⟨acc.reverse ++ l⟩]
  | _ + 1, acc, [] => [⟨acc.reverse⟩]
  | fuel + 1, acc, c :: rest =>
    if c = '\n' && isPrefixL "\nReference Type:".data rest then
      (⟨acc.reverse⟩ : String) :: splitRefTypeGo fuel [] (rest.drop 1)
    else splitRefTypeGo fuel (c :: acc) rest

def splitRefType (l : List Char) : List String :=
  splitRefTypeGo (l.length + 1) [] l

/-- `parse_endnote_entries` of the title/abstract example: split
`text.strip()` on the record separator, skip whitespace-only records, extract
the fields, always set `database = 'Endnote'`, and keep only records whose
parsed title is present and non-empty (`if entry_dict.get('title')`). -/
def parse_endnote_entries (text : String) : List Entry :=
  let entries := splitRefType (pyStrip text.data)
  entries.filterMap fun entry =>
    if (⟨pyStrip entry.data⟩ : String) = "" then none
    else
      let e : Entry :=
        { publication_type :=
            (fieldSearch "Reference Type:" lineGroup entry).map fun v => ⟨pyStrip v⟩
          year := (fieldSearch "Year:" fourDigits entry).map fun v => ⟨v⟩
          title := (fieldSearch "Title:" lazyDotallToNl entry).map fun v =>
            ⟨replaceNlSpace (pyStrip v)⟩
          journal := (fieldSearch "Journal:" lineGroup entry).map fun v => ⟨pyStrip v⟩
          volume := (fieldSearch "Volume:" digitsGroup entry).map fun v => ⟨v⟩
          issue := (fieldSearch "Issue:" digitsGroup entry).map fun v => ⟨v⟩
          authors := (fieldSearch "Author:" lazyDotallToNl entry).map fun v =>
            ⟨replaceNlSpace (pyStrip v)⟩
          abstract := (fieldSearch "Abstract:" lazyDotallToLabel entry).map fun v =>
            ⟨replaceNlSpace (pyStrip v)⟩
          doi := (fieldSearch "DOI:" lineGroup entry).map fun v => ⟨pyStrip v⟩
          database := some "Endnote" }
      if e.title.getD "" ≠ "" then some e else none

end TitleAbstract

namespace TemplateTA

/-!
`parse_endnote_entries` of the title/abstract screening *template*, which
splits records on blank lines and parses the citation line positionally.
-/

/-- `s.split(sep, 1)`: split at the first occurrence of `sep` only. -/
def splitFirstAux (sep : List Char) : List Char → List Char → List String
  | acc, [] => [⟨acc.reverse⟩]
  | acc, c :: rest =>
    if isPrefixL sep (c :: rest) then
      [⟨acc.reverse⟩, ⟨(c :: rest).drop sep.length⟩]
    else splitFirstAux sep (c :: acc) rest

def splitFirst (sep : List Char) (l : List Char) : List String :=
  splitFirstAux sep [] l

/-- `re.sub(r'<ovid:[^>]+>', '', s)`: delete every `<ovid:` span with a
non-empty `>`-free body closed by `>`, scanning left to right.  Fuel as in
`pySplitGo`. -/
def subOvidGo : Nat → List Char → List Char
  | 0, l => l
  | _ + 1, [] => []
  | fuel + 1, c :: rest =>
    if isPrefixL "<ovid:".data (c :: rest) then
      let after := rest.drop 5
      let body := after.takeWhile (fun d => d ≠ '>')
      if !body.isEmpty && (match after.drop body.length with | '>' :: _ => true | _ => false)
      then subOvidGo fuel (after.drop (body.length + 1))
      else c :: subOvidGo fuel rest
    else c :: subOvidGo fuel rest

def subOvid (l : List Char) : List Char :=
  subOvidGo (l.length + 1) l

/-- `parse_endnote_entries` of the template: records are split on `'\n\n'`;
the citation part (before the first `'\n\t'`) is split on `'. ('`, `'). "'`
and `'." '` to recover authors, year, title and journal; the indented part is
the abstract (ovid tags removed).  Any record that parsed at least one field
is kept — there is no title requirement — and `database` and a default
`publication_type` are added. -/
def parse_endnote_entries (text : String) : List TitleAbstract.Entry :=
  let entries := pySplit "\n\n".data (pyStrip text.data)
  entries.filterMap fun entry =>
    if (⟨pyStrip entry.data⟩ : String) = "" then none
    else
      let parts := splitFirst "\n\t".data entry.data
      let citation := parts.headD ""
      let citation_parts := pySplit ". (".data citation.data
      let authorsV : Option String :=
        if 2 ≤ citation_parts.length then some ⟨pyStrip (citation_parts.headD "").data⟩
        else none
      let year_title := pySplit "). \"".data (citation_parts.getD 1 "").data
      let haveYT := 2 ≤ citation_parts.length ∧ 2 ≤ year_title.length
      let yearV : Option String :=
        if haveYT then some ⟨pyStrip (year_title.headD "").data⟩ else none
      let title_parts := pySplit ".\" ".data (year_title.getD 1 "").data
      let titleV : Option String :=
        if haveYT then some ⟨pyStrip (title_parts.headD "").data⟩ else none
      let journalV : Option String :=
        if haveYT ∧ 2 ≤ title_parts.length then some ⟨pyStrip (title_parts.getD 1 "").data⟩
        else none
      let abstractV : Option String :=
        if parts.length = 2 then some ⟨subOvid (pyStrip (parts.getD 1 "").data)⟩ else none
      if authorsV.isSome || yearV.isSome || titleV.isSome || journalV.isSome || abstractV.isSome
      then
        some { authors := authorsV, year := yearV, title := titleV, journal := journalV,
               abstract := abstractV, database := some "Endnote",
               publication_type := some "Journal Article" }
      else none

end TemplateTA

namespace FullText

/-- The evaluator shape shared by `validate_pathway_terms` and
`validate_metabolic_pathways`, with the taxonomy category's pattern list as a
parameter: normalize the text once, collect the word-bounded patterns
(`\bX\b`, passed as their literal cores `X`) that match anywhere in it, and
`is_valid` iff at least one pattern hit. -/
def validate_terms (terms : List String) (combined_text : String) : ValResult :=
  let normalized_text := normalize_text combined_text
  let hits := terms.filter fun term => wordSearch term.data normalized_text.data
  { is_valid := decide (1 ≤ hits.length), terms_found := hits }

end FullText

/-- All positions of `l` at which the review pattern matches (the indexed
counterpart of `reviewSearch` over the whole text). -/
def reviewMatchPosAux : Option Char → Nat → List Char → List Nat
  | prev, i, [] => if reviewMatchHere prev [] then [i] else []
  | prev, i, c :: rest =>
    (if reviewMatchHere prev (c :: rest) then [i] else []) ++
      reviewMatchPosAux (some c) (i + 1) rest

def reviewMatchPositions (l : List Char) : List Nat :=
  reviewMatchPosAux none 0 l

namespace FullText

/-- Sum of the six bucket counts of the summary sheet. -/
def Categories.total (c : Categories) : Nat :=
  c.included_original.length + c.included_reviews.length + c.excluded_not_condition.length +
    c.excluded_not_pathway.length + c.excluded_no_methods.length + c.processing_failed.length

/-- Bucket-wise concatenation of two category dicts. -/
def mergeCats (c d : Categories) : Categories :=
  { included_original := c.included_original ++ d.included_original
    included_reviews := c.included_reviews ++ d.included_reviews
    excluded_not_condition := c.excluded_not_condition ++ d.excluded_not_condition
    excluded_not_pathway := c.excluded_not_pathway ++ d.excluded_not_pathway
    excluded_no_methods := c.excluded_no_methods ++ d.excluded_no_methods
    processing_failed := c.processing_failed ++ d.processing_failed }

end FullText

namespace TitleAbstract

/-- Sum of the six bucket counts of the summary sheet. -/
def EntryCategories.total (c : EntryCategories) : Nat :=
  c.included.length + c.systematic_reviews.length + c.narrative_reviews.length +
    c.duplicates.length + c.not_HFpEF_related.length + c.no_measurements.length

/-- All bucket contents in one list (order: the dict order of the source). -/
def EntryCategories.flattenAll (c : EntryCategories) : List Entry :=
  c.included ++ c.systematic_reviews ++ c.narrative_reviews ++ c.duplicates ++
    c.not_HFpEF_related ++ c.no_measurements

end TitleAbstract

/-- C6: for the input `"Methods\nFoo\nResults\nBar"`, the section extractor
maps `methods` to `"Foo"` and `results` to `"Bar"`: the first heading line
starts the methods buffer, the `Results` heading flushes it into `methods`,
and the end of input flushes the remaining buffer into `results`. -/
theorem claim_C6_section_extractor_example :
    (FullText.extract_text_sections "Methods\nFoo\nResults\nBar").methods = "Foo" ∧
    (FullText.extract_text_sections "Methods\nFoo\nResults\nBar").results = "Bar" := by
  decide

/-- C8: for a taxonomy category whose single pattern is `\bketone\b`
(represented by its literal core `"ketone"`) and the text
`"ketone oxidation observed"`, the relevance evaluator reports
`is_valid = true` and `"ketone"` is among the terms found. -/
theorem claim_C8_relevance_evaluator_ketone :
    (FullText.validate_terms ["ketone"] "ketone oxidation observed").is_valid = true ∧
    "ketone" ∈ (FullText.validate_terms ["ketone"] "ketone oxidation observed").terms_found := by
  decide

namespace FullText

/-- If the text is non-empty and the review pattern does not match its
lowercased first-1000-character prefix, the loop body falls through to the
relevance checks. -/
theorem process_article_eq_relevance_route (a : Article)
    (h1 : a.text.getD "" ≠ "")
    (h2 : reviewSearch ((lowerStr (a.text.getD "").data).take 1000) = false) :
    process_article a = relevance_route a := by
  unfold process_article
  simp [h1, h2]

end FullText

/-- C10 (amended): the review check of the full-text pipeline examines only the
first 1000 characters of the lowercased raw text — whenever that prefix
contains no match of the review pattern (and the text is non-empty), the
article is not routed to `included_reviews` but proceeds to the relevance
checks.  The original phrasing over occurrences in the *full* text fails at
the truncation boundary; see the counterexample. -/
theorem claim_C10_review_first_1000 (a : FullText.Article)
    (h1 : a.text.getD "" ≠ "")
    (h2 : reviewSearch ((lowerStr (a.text.getD "").data).take 1000) = false) :
    FullText.process_article a = FullText.relevance_route a :=
  FullText.process_article_eq_relevance_route a h1 h2

theorem claim_C10_witness :
    FullText.process_article { text := some "term1x" } =
      FullText.relevance_route { text := some "term1x" } :=
  claim_C10_review_first_1000 { text := some "term1x" } (by decide) (by decide)

/-- C10 counterexample: in this 1013-character text every match of the review
pattern in the full lowercased text starts at position 1002 — entirely after
the first 1000 characters (`"reviews"` at 994 is not word-bounded in the full
text) — yet the article IS routed to `included_reviews`: truncation at 1000
cuts the text right after `…review`, and the slice's end acts as a word
boundary, so `\breview\b` matches inside the first 1000 characters of the
slice. -/
theorem claim_C10_counterexample :
    reviewMatchPositions
      (lowerStr (String.mk (List.replicate 993 'x') ++ " reviews review here").data) = [1002] ∧
    FullText.process_article
        { text := some (String.mk (List.replicate 993 'x') ++ " reviews review here") } =
      FullText.Disposition.included_reviews ⟨"", ""⟩ := by
  decide

/-- C2 (corrected): in the Entry pipeline the DUPLICATE check is step 1 and the
review check is step 2, not the other way around: an entry whose key matches a
previously seen key above the threshold is appended to `duplicates` without its
publication type ever being consulted (and its key is not registered); only an
entry that passes the duplicate scan is review-routed by publication type. -/
theorem claim_C2_duplicate_check_precedes_review
    (cats : TitleAbstract.EntryCategories) (seen : List String) (e : TitleAbstract.Entry) :
    (TitleAbstract.scan_duplicate (TitleAbstract.get_entry_key e) seen = true →
      TitleAbstract.filter_step (cats, seen) e =
        ({ cats with duplicates := cats.duplicates ++ [e] }, seen)) ∧
    (TitleAbstract.scan_duplicate (TitleAbstract.get_entry_key e) seen = false →
      containsSub "review".data (lowerStr (e.publication_type.getD "").data) = true →
      (TitleAbstract.filter_step (cats, seen) e).2 = seen ++ [TitleAbstract.get_entry_key e] ∧
      (TitleAbstract.filter_step (cats, seen) e).1.duplicates = cats.duplicates ∧
      ((TitleAbstract.filter_step (cats, seen) e).1.systematic_reviews =
          cats.systematic_reviews ++ [e] ∨
        (TitleAbstract.filter_step (cats, seen) e).1.narrative_reviews =
          cats.narrative_reviews ++ [e])) := by
  constructor
  · intro h
    unfold TitleAbstract.filter_step
    simp [h]
  · intro h1 h2
    unfold TitleAbstract.filter_step
    by_cases h3 : (["systematic", "meta-analysis"]).any
        (fun term => containsSub term.data (lowerStr (e.publication_type.getD "").data)) = true
    · simp [h1, h2, h3]
    · simp [h1, h2, h3]

theorem claim_C2_witness :
    TitleAbstract.filter_step (({} : TitleAbstract.EntryCategories), ["abc|"])
        { title := some "abc", publication_type := some "Systematic Review" } =
      ({ duplicates := [{ title := some "abc", publication_type := some "Systematic Review" }] },
        ["abc|"]) := by
  have h := (claim_C2_duplicate_check_precedes_review {} ["abc|"]
    { title := some "abc", publication_type := some "Systematic Review" }).1 (by decide)
  simpa using h

/-- C2 counterexample: with a first entry titled `"abc"` already accepted, a
second entry with the same title and publication type `"Systematic Review"`
(which matches the review pattern) is routed to `duplicates`, not to
`systematic_reviews` — the claim said a review-typed entry is never routed to
the duplicates bucket. -/
theorem claim_C2_counterexample :
    containsSub "review".data
      (lowerStr (("Systematic Review" : String)).data) = true ∧
    (TitleAbstract.filter_articles
        [{ title := some "abc" },
         { title := some "abc", publication_type := some "Systematic Review" }]).duplicates =
      [{ title := some "abc", publication_type := some "Systematic Review" }] ∧
    (TitleAbstract.filter_articles
        [{ title := some "abc" },
         { title := some "abc", publication_type := some "Systematic Review" }]).systematic_reviews =
      [] := by
  decide

/-- C5: the duplicate scan over a new entry's key returns true exactly when
some previously accepted key (scanned in insertion order, stopping at the
first hit) has similarity ratio strictly above the `0.85` threshold
(`mkRat 17 20`) with `get_entry_key` of the entry — the normalized title,
`'|'`, and the first 300 characters of the normalized abstract; and the seen
set after the loop body is unchanged for a duplicate and extended by the new
key for a non-duplicate. -/
theorem claim_C5_duplicate_detector_contract
    (seen : List String) (cats : TitleAbstract.EntryCategories) (e : TitleAbstract.Entry) :
    (TitleAbstract.scan_duplicate (TitleAbstract.get_entry_key e) seen = true ↔
      ∃ k ∈ seen,
        mkRat 17 20 < TitleAbstract.text_similarity (TitleAbstract.get_entry_key e) k) ∧
    (TitleAbstract.filter_step (cats, seen) e).2 =
      (if TitleAbstract.scan_duplicate (TitleAbstract.get_entry_key e) seen then seen
       else seen ++ [TitleAbstract.get_entry_key e]) := by
  constructor
  · induction seen with
    | nil => simp [TitleAbstract.scan_duplicate]
    | cons k ks ih =>
      by_cases h : TitleAbstract.text_similarity (TitleAbstract.get_entry_key e) k > mkRat 17 20
      · simp [TitleAbstract.scan_duplicate, h]
      · simp only [TitleAbstract.scan_duplicate, h, if_false]
        rw [ih]
        simp only [List.mem_cons]
        constructor
        · rintro ⟨k2, hk2, hs⟩
          exact ⟨k2, Or.inr hk2, hs⟩
        · rintro ⟨k2, hk2 | hk2, hs⟩
          · exact absurd (hk2 ▸ hs) h
          · exact ⟨k2, hk2, hs⟩
  · by_cases h : TitleAbstract.scan_duplicate (TitleAbstract.get_entry_key e) seen
    · unfold TitleAbstract.filter_step
      simp [h]
    · unfold TitleAbstract.filter_step
      simp only [Bool.not_eq_true] at h
      simp only [h, Bool.false_eq_true, if_false]
      split_ifs <;> rfl

/-- C4 (amended, scoped to the full-text pipeline): for every article that
passes the review check (non-empty text, no review-pattern match in the
first 1000 lowercased characters) and the model-validity check, an invalid
pathway group routes the article terminally to `excluded_not_pathway` with
reason `"Insufficient pathway coverage"`, before and regardless of the
measurement check (no constraint on measurement validity appears below).  In
the title/abstract Entry pipeline the claim fails: pathway detail and
measurements are combined disjunctively and there is no pathway-exclusion
bucket; see the counterexample. -/
theorem claim_C4_pathway_exclusion_precedes_measurements
    (a : FullText.Article)
    (h1 : a.text.getD "" ≠ "")
    (h2 : reviewSearch ((lowerStr (a.text.getD "").data).take 1000) = false)
    (h3 : (FullText.check_study_relevance
        (FullText.extract_text_sections (a.text.getD ""))).has_valid_model = true)
    (h4 : (FullText.check_study_relevance
        (FullText.extract_text_sections (a.text.getD ""))).pathways.is_valid = false) :
    FullText.process_article a =
      FullText.Disposition.excluded_not_pathway
        ⟨a.filename.getD "", "Insufficient pathway coverage",
          (FullText.check_study_relevance
            (FullText.extract_text_sections (a.text.getD ""))).pathways⟩ := by
  rw [FullText.process_article_eq_relevance_route a h1 h2]
  unfold FullText.relevance_route
  have hrel : (FullText.check_study_relevance
        (FullText.extract_text_sections (a.text.getD ""))).is_relevant =
      ((FullText.check_study_relevance
          (FullText.extract_text_sections (a.text.getD ""))).has_valid_model &&
        (FullText.check_study_relevance
          (FullText.extract_text_sections (a.text.getD ""))).direct_measurements.is_valid &&
        (FullText.check_study_relevance
          (FullText.extract_text_sections (a.text.getD ""))).pathways.is_valid) := rfl
  simp [hrel, h3, h4]

theorem claim_C4_witness :
    FullText.process_article { text := some "term1x" } =
      FullText.Disposition.excluded_not_pathway
        ⟨"", "Insufficient pathway coverage",
          (FullText.check_study_relevance (FullText.extract_text_sections "term1x")).pathways⟩ :=
  claim_C4_pathway_exclusion_precedes_measurements { text := some "term1x" }
    (by decide) (by decide) (by decide) (by decide)

/-- C4 counterexample: in the Entry pipeline, an entry with invalid pathway
coverage (`check_metabolic_detail` is false — no metabolic-pathway term
occurs) is nevertheless `included`, on the strength of its measurement term
(`'immunoblot'`) alone, because the pipeline ORs the pathway-detail and
measurement checks; there is no pathway-exclusion step prior to the
measurement check. -/
theorem claim_C4_counterexample :
    TitleAbstract.check_metabolic_detail
        { title := some "hfpef immunoblot study",
          publication_type := some "Journal Article" } = false ∧
    (TitleAbstract.filter_articles
        [{ title := some "hfpef immunoblot study",
           publication_type := some "Journal Article" }]).included =
      [{ title := some "hfpef immunoblot study",
         publication_type := some "Journal Article" }] := by
  decide

/-- C7 (amended, scoped to the parser of the title/abstract example): a record
whose parsed title is absent or strips to the empty string is dropped, so
every entry in the parser's output has a present, non-empty title.  The
template's variant of `parse_endnote_entries` does NOT drop such records — it
keeps any record that parsed at least one field; see the counterexample. -/
theorem claim_C7_example_parser_drops_untitled
    (text : String) (e : TitleAbstract.Entry)
    (he : e ∈ TitleAbstract.parse_endnote_entries text) :
    e.title ≠ none ∧ e.title.getD "" ≠ "" := by
  have option_getD_ne_none : ∀ {o : Option String}, o.getD "" ≠ "" → o ≠ none := by
    intro o h hn
    subst hn
    exact h rfl
  unfold TitleAbstract.parse_endnote_entries at he
  simp only [List.mem_filterMap] at he
  obtain ⟨rec, _, hrec⟩ := he
  by_cases h1 : (⟨pyStrip rec.data⟩ : String) = ""
  · simp [h1] at hrec
  · simp only [h1, if_false] at hrec
    split_ifs at hrec with h2
    cases hrec
    exact ⟨option_getD_ne_none h2, h2⟩

theorem claim_C7_witness :
    ({ title := some "A Study", database := some "Endnote" } : TitleAbstract.Entry) ∈
      TitleAbstract.parse_endnote_entries "Title: A Study" ∧
    ({ title := some "A Study", database := some "Endnote" } : TitleAbstract.Entry).title ≠ none ∧
    ({ title := some "A Study", database := some "Endnote" } :
      TitleAbstract.Entry).title.getD "" ≠ "" :=
  ⟨by decide,
   claim_C7_example_parser_drops_untitled "Title: A Study"
     { title := some "A Study", database := some "Endnote" } (by decide)⟩

/-- C7 counterexample: the template's `parse_endnote_entries` keeps a record
that parsed only an abstract — the output entry has no title at all, so
"a record lacking a title field is dropped" fails for that parser. -/
theorem claim_C7_counterexample :
    TemplateTA.parse_endnote_entries "foo\n\tbar" =
      [{ abstract := some "bar", database := some "Endnote",
         publication_type := some "Journal Article" }] ∧
    ({ abstract := some "bar", database := some "Endnote",
       publication_type := some "Journal Article" } : TitleAbstract.Entry).title = none := by
  decide

namespace FullText

theorem relevance_is_relevant_eq (s : Sections) :
    (check_study_relevance s).is_relevant =
      ((check_study_relevance s).has_valid_model &&
        (check_study_relevance s).direct_measurements.is_valid &&
        (check_study_relevance s).pathways.is_valid) := rfl

/-- The fall-through `continue` of the `not is_relevant` branch is unreachable:
`is_relevant` is the conjunction of the three checks, so when it is false one
of the three `elif`s fires. -/
theorem relevance_route_ne_dropped (a : Article) : relevance_route a ≠ .dropped := by
  unfold relevance_route
  have h := relevance_is_relevant_eq (extract_text_sections (a.text.getD ""))
  cases hm : (check_study_relevance (extract_text_sections (a.text.getD ""))).has_valid_model <;>
    cases hp : (check_study_relevance (extract_text_sections (a.text.getD ""))).pathways.is_valid <;>
    cases hd : (check_study_relevance
      (extract_text_sections (a.text.getD ""))).direct_measurements.is_valid <;>
    simp [h, hm, hp, hd]

theorem process_article_ne_dropped (a : Article) : process_article a ≠ .dropped := by
  unfold process_article
  by_cases h1 : a.text.getD "" = ""
  · simp [h1]
  · by_cases h2 : reviewSearch ((lowerStr (a.text.getD "").data).take 1000)
    · simp [h1, h2]
    · simp only [h1, h2, if_false, ite_false]
      have := relevance_route_ne_dropped a
      split_ifs <;> simp_all

theorem addDisposition_total (c : Categories) (d : Disposition) (h : d ≠ .dropped) :
    (addDisposition c d).total = c.total + 1 := by
  cases d <;>
    first
      | exact absurd rfl h
      | (simp [addDisposition, Categories.total]; omega)

theorem foldl_total (l : List Article) : ∀ c : Categories,
    (l.foldl (fun cats a => addDisposition cats (process_article a)) c).total =
      c.total + l.length := by
  induction l with
  | nil => intro c; simp
  | cons a l ih =>
    intro c
    simp only [List.foldl_cons, List.length_cons]
    rw [ih, addDisposition_total c _ (process_article_ne_dropped a)]
    omega

theorem mergeCats_empty (c : Categories) : mergeCats c {} = c := by
  cases c
  simp [mergeCats]

theorem addDisposition_merge (c : Categories) (d : Disposition) :
    addDisposition c d = mergeCats c (addDisposition {} d) := by
  cases d <;> cases c <;> simp [addDisposition, mergeCats]

theorem mergeCats_assoc (a b c : Categories) :
    mergeCats (mergeCats a b) c = mergeCats a (mergeCats b c) := by
  simp [mergeCats, List.append_assoc]

theorem foldl_merge (l : List Article) : ∀ c : Categories,
    l.foldl (fun cats a => addDisposition cats (process_article a)) c =
      mergeCats c (l.foldl (fun cats a => addDisposition cats (process_article a)) {}) := by
  induction l with
  | nil => intro c; rw [List.foldl_nil, List.foldl_nil, mergeCats_empty]
  | cons a l ih =>
    intro c
    simp only [List.foldl_cons]
    rw [ih (addDisposition c (process_article a)),
      ih (addDisposition {} (process_article a)),
      addDisposition_merge c, mergeCats_assoc]

theorem filter_articles_total (l : List Article) : (filter_articles l).total = l.length := by
  unfold filter_articles
  rw [foldl_total]
  simp [Categories.total]

theorem filter_articles_append (l1 l2 : List Article) :
    filter_articles (l1 ++ l2) = mergeCats (filter_articles l1) (filter_articles l2) := by
  unfold filter_articles
  rw [List.foldl_append, foldl_merge]

theorem filter_articles_cons (a : Article) (l : List Article) :
    filter_articles (a :: l) =
      mergeCats (addDisposition {} (process_article a)) (filter_articles l) := by
  unfold filter_articles
  simp only [List.foldl_cons]
  rw [foldl_merge]

end FullText

namespace TitleAbstract

theorem filter_step_total (st : EntryCategories × List String) (e : Entry) :
    (filter_step st e).1.total = st.1.total + 1 ∧
    ∀ x : Entry, (filter_step st e).1.flattenAll.count x =
      st.1.flattenAll.count x + [e].count x := by
  obtain ⟨c, s⟩ := st
  simp only [filter_step]
  split_ifs <;>
    refine ⟨by simp [EntryCategories.total]; omega, fun x => ?_⟩ <;>
    (simp [EntryCategories.flattenAll, List.count_append, List.count_cons]; omega)

theorem foldl_entry_total (es : List Entry) : ∀ st : EntryCategories × List String,
    ((es.foldl filter_step st).1.total = st.1.total + es.length) ∧
    ∀ x : Entry, (es.foldl filter_step st).1.flattenAll.count x =
      st.1.flattenAll.count x + es.count x := by
  induction es with
  | nil => intro st; simp
  | cons e es ih =>
    intro st
    simp only [List.foldl_cons, List.length_cons]
    obtain ⟨h1, h2⟩ := ih (filter_step st e)
    obtain ⟨g1, g2⟩ := filter_step_total st e
    refine ⟨by rw [h1, g1]; omega, fun x => ?_⟩
    rw [h2 x, g2 x]
    simp [List.count_cons]
    omega

end TitleAbstract

/-- C1: in both pipelines every input record lands in exactly one category
bucket — the six bucket counts sum to the number of input records, and for the
Entry pipeline (whose buckets store the input records themselves) the bucket
contents taken together are a permutation of the input: none lost, none placed
in two buckets. -/
theorem claim_C1_every_record_in_exactly_one_bucket
    (articles : List FullText.Article) (entries : List TitleAbstract.Entry) :
    (FullText.filter_articles articles).total = articles.length ∧
    (TitleAbstract.filter_articles entries).total = entries.length ∧
    (TitleAbstract.filter_articles entries).flattenAll.Perm entries := by
  refine ⟨FullText.filter_articles_total articles, ?_, ?_⟩
  · unfold TitleAbstract.filter_articles
    have h := (TitleAbstract.foldl_entry_total entries ({}, [])).1
    simpa [TitleAbstract.EntryCategories.total] using h
  · rw [List.perm_iff_count]
    intro x
    unfold TitleAbstract.filter_articles
    have h := (TitleAbstract.foldl_entry_total entries ({}, [])).2 x
    simpa [TitleAbstract.EntryCategories.flattenAll] using h

/-- C3: a record-level failure is caught locally and never aborts the batch.
In the full-text pipeline — the only pipeline with a failure path: its loop
body raises exactly on empty text content, and the per-record `except` routes
that record to `processing_failed` with the error message — a failing record
placed anywhere in the batch contributes exactly its error row to
`processing_failed`, and every other bucket is exactly what the surrounding
records produce, so the rest of the batch is classified as if the failing
record's error had not occurred.  The Entry pipeline's loop body is total
(`dict.get` supplies defaults for missing fields), so every record of its
batch is classified as well. -/
theorem claim_C3_per_record_failure_isolated
    (l1 l2 : List FullText.Article) (a : FullText.Article) (es : List TitleAbstract.Entry)
    (h : a.text.getD "" = "") :
    (FullText.filter_articles (l1 ++ a :: l2)).processing_failed =
      (FullText.filter_articles l1).processing_failed ++
        ⟨a.filename.getD "", "Empty text content"⟩ ::
          (FullText.filter_articles l2).processing_failed ∧
    (FullText.filter_articles (l1 ++ a :: l2)).included_original =
      (FullText.filter_articles l1).included_original ++
        (FullText.filter_articles l2).included_original ∧
    (FullText.filter_articles (l1 ++ a :: l2)).included_reviews =
      (FullText.filter_articles l1).included_reviews ++
        (FullText.filter_articles l2).included_reviews ∧
    (FullText.filter_articles (l1 ++ a :: l2)).excluded_not_condition =
      (FullText.filter_articles l1).excluded_not_condition ++
        (FullText.filter_articles l2).excluded_not_condition ∧
    (FullText.filter_articles (l1 ++ a :: l2)).excluded_not_pathway =
      (FullText.filter_articles l1).excluded_not_pathway ++
        (FullText.filter_articles l2).excluded_not_pathway ∧
    (FullText.filter_articles (l1 ++ a :: l2)).excluded_no_methods =
      (FullText.filter_articles l1).excluded_no_methods ++
        (FullText.filter_articles l2).excluded_no_methods ∧
    (TitleAbstract.filter_articles es).total = es.length := by
  have hp : FullText.process_article a =
      .processing_failed ⟨a.filename.getD "", "Empty text content"⟩ := by
    unfold FullText.process_article
    simp [h]
  have hsplit : FullText.filter_articles (l1 ++ a :: l2) =
      FullText.mergeCats (FullText.filter_articles l1)
        (FullText.mergeCats (FullText.addDisposition {} (FullText.process_article a))
          (FullText.filter_articles l2)) := by
    rw [FullText.filter_articles_append, FullText.filter_articles_cons]
  rw [hsplit, hp]
  refine ⟨?_, ?_, ?_, ?_, ?_, ?_, ?_⟩
  · simp [FullText.mergeCats, FullText.addDisposition]
  · simp [FullText.mergeCats, FullText.addDisposition]
  · simp [FullText.mergeCats, FullText.addDisposition]
  · simp [FullText.mergeCats, FullText.addDisposition]
  · simp [FullText.mergeCats, FullText.addDisposition]
  · simp [FullText.mergeCats, FullText.addDisposition]
  · unfold TitleAbstract.filter_articles
    have h2 := (TitleAbstract.foldl_entry_total es ({}, [])).1
    simpa [TitleAbstract.EntryCategories.total] using h2

theorem claim_C3_witness :
    (FullText.filter_articles
        [{ filename := some "ok.txt", text := some "term1x" },
         { filename := some "bad.txt", text := some "" }]).processing_failed =
      [⟨"bad.txt", "Empty text content"⟩] ∧
    (FullText.filter_articles
        [{ filename := some "ok.txt", text := some "term1x" },
         { filename := some "bad.txt", text := some "" }]).total = 2 := by
  have h := claim_C3_per_record_failure_isolated
    [{ filename := some "ok.txt", text := some "term1x" }] []
    { filename := some "bad.txt", text := some "" } [] (by decide)
  refine ⟨?_, by decide⟩
  have h1 := h.1
  simp only [List.singleton_append] at h1
  rw [h1]
  decide

theorem lowerChar_toNat_of_upper {c : Char} (h : 65 ≤ c.toNat ∧ c.toNat ≤ 90) :
    (lowerChar c).toNat = c.toNat + 32 := by
  unfold lowerChar
  rw [dif_pos h]
  rfl

theorem lowerChar_eq_of_not_upper {c : Char} (h : ¬(65 ≤ c.toNat ∧ c.toNat ≤ 90)) :
    lowerChar c = c := by
  unfold lowerChar
  rw [dif_neg h]

theorem lowerChar_idem (c : Char) : lowerChar (lowerChar c) = lowerChar c := by
  by_cases h : 65 ≤ c.toNat ∧ c.toNat ≤ 90
  · have h2 := lowerChar_toNat_of_upper h
    exact lowerChar_eq_of_not_upper (by omega)
  · rw [lowerChar_eq_of_not_upper h, lowerChar_eq_of_not_upper h]

theorem map_self_of {α : Type} (f : α → α) :
    ∀ l : List α, (∀ c ∈ l, f c = c) → l.map f = l := by
  intro l
  induction l with
  | nil => intro _; rfl
  | cons c cs ih =>
    intro h
    simp only [List.map_cons]
    rw [h c (by simp), ih (fun d hd => h d (by simp [hd]))]

/-- Every character emitted by the whitespace-collapsing pass is either the
replacement space or a non-whitespace character of the input. -/
theorem collapseWs_mem : ∀ (b : Bool) (l : List Char) (c : Char),
    c ∈ collapseWs b l → c = ' ' ∨ (c ∈ l ∧ wsChar c = false) := by
  intro b l
  induction l generalizing b with
  | nil => intro c hc; simp [collapseWs] at hc
  | cons d ds ih =>
    intro c hc
    by_cases hd : wsChar d
    · simp only [collapseWs, hd, if_true] at hc
      by_cases hb : b
      · subst hb
        rcases ih true c hc with h | ⟨h1, h2⟩
        · exact Or.inl h
        · exact Or.inr ⟨by simp [h1], h2⟩
      · simp only [Bool.not_eq_true] at hb
        subst hb
        simp only [Bool.false_eq_true, if_false, List.mem_cons] at hc
        rcases hc with h | h
        · exact Or.inl h
        · rcases ih true c h with h2 | ⟨h2, h3⟩
          · exact Or.inl h2
          · exact Or.inr ⟨by simp [h2], h3⟩
    · simp only [collapseWs, hd, if_false, Bool.false_eq_true, List.mem_cons] at hc
      rcases hc with h | h
      · subst h
        exact Or.inr ⟨by simp, by simpa using hd⟩
      · rcases ih false c h with h2 | ⟨h2, h3⟩
        · exact Or.inl h2
        · exact Or.inr ⟨by simp [h2], h3⟩

/-- After a space has just been emitted, the next emitted character is not
whitespace. -/
theorem collapseWs_true_head : ∀ (l : List Char) (c : Char),
    (collapseWs true l).head? = some c → wsChar c = false := by
  intro l
  induction l with
  | nil => intro c hc; simp [collapseWs] at hc
  | cons d ds ih =>
    intro c hc
    by_cases hd : wsChar d
    · simp only [collapseWs, hd, if_true] at hc
      exact ih c hc
    · simp only [collapseWs, hd, if_false, Bool.false_eq_true, List.head?_cons,
        Option.some.injEq] at hc
      subst hc
      simpa using hd

/-- No two adjacent characters of the collapsed output are both whitespace. -/
theorem collapseWs_chain : ∀ (b : Bool) (l : List Char),
    List.Chain' (fun x y => wsChar x = false ∨ wsChar y = false) (collapseWs b l) := by
  intro b l
  induction l generalizing b with
  | nil => simp [collapseWs]
  | cons d ds ih =>
    by_cases hd : wsChar d
    · simp only [collapseWs, hd, if_true]
      by_cases hb : b
      · subst hb; exact ih true
      · simp only [Bool.not_eq_true] at hb
        subst hb
        refine List.chain'_cons'.2 ⟨fun y hy => Or.inr (collapseWs_true_head ds y hy), ih true⟩
    · simp only [collapseWs, hd, if_false, Bool.false_eq_true]
      refine List.chain'_cons'.2 ⟨fun y _ => Or.inl (by simpa using hd), ih false⟩

/-- On a list whose whitespace is only isolated single spaces, the collapsing
pass is the identity. -/
theorem collapseWs_fixed : ∀ (l : List Char) (b : Bool),
    (∀ c ∈ l, wsChar c = true → c = ' ') →
    List.Chain' (fun x y => wsChar x = false ∨ wsChar y = false) l →
    (b = true → ∀ c ∈ l.head?, wsChar c = false) →
    collapseWs b l = l := by
  intro l
  induction l with
  | nil => intro b _ _ _; rfl
  | cons d ds ih =>
    intro b honly hchain hb
    by_cases hd : wsChar d
    · have hb2 : b = false := by
        cases b
        · rfl
        · exact absurd hd (by simpa using hb rfl d rfl)
      subst hb2
      have hd2 : d = ' ' := honly d (by simp) hd
      have hih : collapseWs true ds = ds := by
        apply ih true (fun c hc => honly c (by simp [hc])) (List.chain'_cons'.1 hchain).2
        intro _ c hc
        rcases (List.chain'_cons'.1 hchain).1 c hc with h | h
        · exact absurd hd (by simp [h])
        · exact h
      simp only [collapseWs, hd, if_true, Bool.false_eq_true, if_false, hih, hd2]
      simp [wsChar]
    · simp only [collapseWs, hd, if_false, Bool.false_eq_true]
      rw [ih false (fun c hc => honly c (by simp [hc])) (List.chain'_cons'.1 hchain).2
        (by simp)]

theorem pyStrip_eq (l : List Char) :
    pyStrip l = List.rdropWhile wsChar (l.dropWhile wsChar) := rfl

theorem pyStrip_subset {l : List Char} {c : Char} (hc : c ∈ pyStrip l) : c ∈ l := by
  rw [pyStrip_eq] at hc
  exact (l.dropWhile_suffix wsChar).subset ((List.rdropWhile_prefix wsChar _).subset hc)

theorem pyStrip_isInfixOf (l : List Char) : pyStrip l <:+: l := by
  rw [pyStrip_eq]
  exact (List.rdropWhile_prefix wsChar _).isInfix.trans (l.dropWhile_suffix wsChar).isInfix

theorem dropWhile_cons_head {p : Char → Bool} {l : List Char} {c : Char} {r : List Char}
    (h : l.dropWhile p = c :: r) : p c = false := by
  induction l with
  | nil => simp [List.dropWhile] at h
  | cons d ds ih =>
    rw [List.dropWhile_cons] at h
    split_ifs at h with hp
    · exact ih h
    · cases h
      simpa using hp

theorem dropWhile_pyStrip (l : List Char) :
    (pyStrip l).dropWhile wsChar = pyStrip l := by
  rw [pyStrip_eq]
  rcases hrd : List.rdropWhile wsChar (l.dropWhile wsChar) with _ | ⟨c, cs⟩
  · rfl
  · obtain ⟨t, ht⟩ := List.rdropWhile_prefix wsChar (l.dropWhile wsChar)
    rw [hrd] at ht
    have ht2 : List.dropWhile wsChar l = c :: (cs ++ t) := by
      rw [← ht]
      simp
    have hc := dropWhile_cons_head ht2
    rw [List.dropWhile_cons, if_neg (by simp [hc])]

theorem pyStrip_idem (l : List Char) : pyStrip (pyStrip l) = pyStrip l := by
  rw [pyStrip_eq (pyStrip l), dropWhile_pyStrip, pyStrip_eq l,
    List.rdropWhile_idempotent]

/-- Words produced by the splitter are non-empty and whitespace-free
(provided the running accumulator is whitespace-free). -/
theorem wordsAux_nonws : ∀ (l acc : List Char), (∀ c ∈ acc, wsChar c = false) →
    ∀ w ∈ wordsAux l acc, w ≠ [] ∧ ∀ c ∈ w, wsChar c = false := by
  intro l
  induction l with
  | nil =>
    intro acc hacc w hw
    by_cases h : acc = []
    · simp [wordsAux, h] at hw
    · simp only [wordsAux, h, if_false, List.mem_singleton] at hw
      subst hw
      exact ⟨by simpa using h, fun c hc => hacc c (by simpa using hc)⟩
  | cons d ds ih =>
    intro acc hacc w hw
    by_cases hd : wsChar d
    · simp only [wordsAux, hd, if_true] at hw
      by_cases h : acc = []
      · rw [if_pos h] at hw
        exact ih [] (by simp) w hw
      · rw [if_neg h] at hw
        rcases List.mem_cons.1 hw with h2 | h2
        · subst h2
          exact ⟨by simpa using h, fun c hc => hacc c (by simpa using hc)⟩
        · exact ih [] (by simp) w h2
    · simp only [wordsAux, hd, if_false, Bool.false_eq_true] at hw
      refine ih (d :: acc) ?_ w hw
      intro c hc
      rcases List.mem_cons.1 hc with h2 | h2
      · subst h2; simpa using hd
      · exact hacc c h2

/-- Every character of a produced word comes from the accumulator or the
input. -/
theorem wordsAux_chars : ∀ (l acc : List Char), ∀ w ∈ wordsAux l acc,
    ∀ c ∈ w, c ∈ acc ∨ c ∈ l := by
  intro l
  induction l with
  | nil =>
    intro acc w hw c hc
    by_cases h : acc = []
    · simp [wordsAux, h] at hw
    · simp only [wordsAux, h, if_false, List.mem_singleton] at hw
      subst hw
      exact Or.inl (by simpa using hc)
  | cons d ds ih =>
    intro acc w hw c hc
    by_cases hd : wsChar d
    · simp only [wordsAux, hd, if_true] at hw
      by_cases h : acc = []
      · rw [if_pos h] at hw
        rcases ih [] w hw c hc with h2 | h2
        · simp at h2
        · exact Or.inr (by simp [h2])
      · rw [if_neg h] at hw
        rcases List.mem_cons.1 hw with h2 | h2
        · subst h2
          exact Or.inl (by simpa using hc)
        · rcases ih [] w h2 c hc with h3 | h3
          · simp at h3
          · exact Or.inr (by simp [h3])
    · simp only [wordsAux, hd, if_false, Bool.false_eq_true] at hw
      rcases ih (d :: acc) w hw c hc with h2 | h2
      · rcases List.mem_cons.1 h2 with h3 | h3
        · exact Or.inr (by simp [h3])
        · exact Or.inl h3
      · exact Or.inr (by simp [h2])

/-- Scanning a whitespace-free chunk just moves it (reversed) into the
accumulator. -/
theorem wordsAux_append_word : ∀ (w rest acc : List Char),
    (∀ c ∈ w, wsChar c = false) →
    wordsAux (w ++ rest) acc = wordsAux rest (w.reverse ++ acc) := by
  intro w
  induction w with
  | nil => intro rest acc _; simp
  | cons d ds ih =>
    intro rest acc h
    have hd : wsChar d = false := h d (by simp)
    simp only [List.cons_append, wordsAux, hd, Bool.false_eq_true, if_false, List.append_eq]
    rw [ih rest (d :: acc) (fun c hc => h c (by simp [hc]))]
    simp

/-- Splitting the space-join of non-empty whitespace-free words recovers
exactly those words. -/
theorem pyWords_joinSpace : ∀ W : List (List Char),
    (∀ w ∈ W, w ≠ [] ∧ ∀ c ∈ w, wsChar c = false) →
    pyWords (joinSpace W) = W := by
  intro W
  induction W with
  | nil => intro _; rfl
  | cons w W' ih =>
    intro h
    obtain ⟨hw, hwc⟩ := h w (by simp)
    cases W' with
    | nil =>
      show wordsAux (joinSpace [w]) [] = [w]
      have : joinSpace [w] = w ++ [] := by simp [joinSpace]
      rw [this, wordsAux_append_word w [] [] hwc]
      simp only [List.append_nil, wordsAux]
      rw [if_neg (by simpa using hw)]
      simp
    | cons w2 W'' =>
      show wordsAux (joinSpace (w :: w2 :: W'')) [] = w :: w2 :: W''
      have hjoin : joinSpace (w :: w2 :: W'') = w ++ (' ' :: joinSpace (w2 :: W'')) := rfl
      rw [hjoin, wordsAux_append_word w _ [] hwc]
      have hws : wsChar ' ' = true := by decide
      simp only [List.append_nil, wordsAux, hws, if_true]
      rw [if_neg (by simpa using hw)]
      rw [show wordsAux (joinSpace (w2 :: W'')) [] = pyWords (joinSpace (w2 :: W'')) from rfl]
      rw [ih (fun u hu => h u (by simp [hu]))]
      simp

/-- A character of a space-join is a character of one of the words or the
separator space. -/
theorem joinSpace_mem : ∀ (W : List (List Char)) (c : Char), c ∈ joinSpace W →
    (∃ w ∈ W, c ∈ w) ∨ c = ' ' := by
  intro W
  induction W with
  | nil => intro c hc; simp [joinSpace] at hc
  | cons w W' ih =>
    intro c hc
    cases W' with
    | nil =>
      simp only [joinSpace] at hc
      exact Or.inl ⟨w, by simp, hc⟩
    | cons w2 W'' =>
      have hjoin : joinSpace (w :: w2 :: W'') = w ++ (' ' :: joinSpace (w2 :: W'')) := rfl
      rw [hjoin] at hc
      rcases List.mem_append.1 hc with h | h
      · exact Or.inl ⟨w, by simp, h⟩
      · rcases List.mem_cons.1 h with h2 | h2
        · exact Or.inr h2
        · rcases ih c h2 with ⟨u, hu, hcu⟩ | h3
          · exact Or.inl ⟨u, by simp [hu], hcu⟩
          · exact Or.inr h3

/-- List-level idempotence of the full-text normalizer, for input whose
characters are already case-folded. -/
theorem normalize_ft_list_idem (m : List Char) (hm : ∀ c ∈ m, lowerChar c = c) :
    pyStrip (collapseWs false (lowerStr (pyStrip (collapseWs false m)))) =
      pyStrip (collapseWs false m) := by
  have hmap : lowerStr (pyStrip (collapseWs false m)) = pyStrip (collapseWs false m) := by
    apply map_self_of
    intro c hc
    rcases collapseWs_mem false m c (pyStrip_subset hc) with h | ⟨h1, _⟩
    · subst h; decide
    · exact hm c h1
  rw [hmap]
  have honly : ∀ c ∈ pyStrip (collapseWs false m), wsChar c = true → c = ' ' := by
    intro c hc hw
    rcases collapseWs_mem false m c (pyStrip_subset hc) with h | ⟨_, h2⟩
    · exact h
    · rw [hw] at h2; cases h2
  have hchain : List.Chain' (fun x y => wsChar x = false ∨ wsChar y = false)
      (pyStrip (collapseWs false m)) :=
    List.Chain'.infix (collapseWs_chain false m) (pyStrip_isInfixOf (collapseWs false m))
  rw [collapseWs_fixed (pyStrip (collapseWs false m)) false honly hchain (by simp),
    pyStrip_idem]

/-- List-level idempotence of the title/abstract normalizer, for input whose
characters are case-folded and kept by the `[^\w\s\d]` removal. -/
theorem normalize_ta_list_idem (L : List Char)
    (hl : ∀ c ∈ L, lowerChar c = c) (hk : ∀ c ∈ L, (wordChar c || wsChar c) = true) :
    (lowerStr (joinSpace (pyWords L))).filter (fun c => wordChar c || wsChar c) =
      joinSpace (pyWords L) ∧
    pyWords (joinSpace (pyWords L)) = pyWords L := by
  have hchar : ∀ c ∈ joinSpace (pyWords L), c ∈ L ∨ c = ' ' := by
    intro c hc
    rcases joinSpace_mem (pyWords L) c hc with ⟨w, hw, hcw⟩ | h
    · rcases wordsAux_chars L [] w hw c hcw with h | h
      · simp at h
      · exact Or.inl h
    · exact Or.inr h
  constructor
  · have hmap : lowerStr (joinSpace (pyWords L)) = joinSpace (pyWords L) := by
      apply map_self_of
      intro c hc
      rcases hchar c hc with h | h
      · exact hl c h
      · subst h; decide
    rw [hmap, List.filter_eq_self]
    intro c hc
    rcases hchar c hc with h | h
    · exact hk c h
    · subst h; decide
  · exact pyWords_joinSpace (pyWords L) (wordsAux_nonws L [] (by simp))

/-- C9: both text normalizers are idempotent — the full-text variant
(lowercase, collapse whitespace runs to single spaces, strip) and the
title/abstract variant (lowercase, remove characters outside `\w`/`\s`,
re-join the whitespace-split words with single spaces). -/
theorem claim_C9_normalize_idempotent (s : String) :
    FullText.normalize_text (FullText.normalize_text s) = FullText.normalize_text s ∧
    TitleAbstract.normalize_text (TitleAbstract.normalize_text s) =
      TitleAbstract.normalize_text s := by
  constructor
  · have h := normalize_ft_list_idem (lowerStr s.data) (fun c hc => by
      obtain ⟨d, _, rfl⟩ := List.mem_map.1 hc
      exact lowerChar_idem d)
    show (⟨pyStrip (collapseWs false (lowerStr
        (pyStrip (collapseWs false (lowerStr s.data)))))⟩ : String) =
      ⟨pyStrip (collapseWs false (lowerStr s.data))⟩
    exact congrArg String.mk h
  · by_cases hs : s = ""
    · subst hs
      simp [TitleAbstract.normalize_text]
    · have hl : ∀ c ∈ (lowerStr s.data).filter (fun c => wordChar c || wsChar c),
          lowerChar c = c := by
        intro c hc
        obtain ⟨d, _, rfl⟩ := List.mem_map.1 (List.mem_filter.1 hc).1
        exact lowerChar_idem d
      have hk : ∀ c ∈ (lowerStr s.data).filter (fun c => wordChar c || wsChar c),
          (wordChar c || wsChar c) = true := fun c hc => (List.mem_filter.1 hc).2
      have hinner : TitleAbstract.normalize_text s =
          ⟨joinSpace (pyWords ((lowerStr s.data).filter (fun c => wordChar c || wsChar c)))⟩ := by
        rw [TitleAbstract.normalize_text]
        exact if_neg hs
      rw [hinner]
      by_cases hJ : (⟨joinSpace (pyWords ((lowerStr s.data).filter
          (fun c => wordChar c || wsChar c)))⟩ : String) = ""
      · rw [TitleAbstract.normalize_text, if_pos hJ, hJ]
      · rw [TitleAbstract.normalize_text, if_neg hJ]
        have h := normalize_ta_list_idem
          ((lowerStr s.data).filter (fun c => wordChar c || wsChar c)) hl hk
        show (⟨joinSpace (pyWords ((lowerStr (joinSpace (pyWords ((lowerStr s.data).filter
            (fun c => wordChar c || wsChar c))))).filter
            (fun c => wordChar c || wsChar c)))⟩ : String) = _
        rw [h.1, h.2]
